import Mathlib

/-!
Shallow embedding of `get_cluster_report.py` (MongoDB Atlas cluster report
generator) and verification of its specification claims.

The embedding models:
* `api_get`    — single-page fetch with retry/backoff over an abstract
                 sequence of per-attempt outcomes; returns the result and
                 the list of sleep durations performed;
* `api_get_all`— the page-walker accumulating `results` lists, over an
                 abstract server mapping page numbers to responses;
* `filter_projects` — glob-based include/exclude filtering (fnmatch-style
                 matching, case-insensitive);
* `get_tier`, `is_large_tier` — derived-field computation;
* the CSV/table row builders and the report sort of `print_report`
  (Python's stable sort is modelled by `List.insertionSort`, which is a
  stable sort for the same total preorder, and stable sorts are unique).
-/

namespace ClusterReport

/-- Value of a list of ASCII digit characters, as `int()` computes it
(most-significant first; leading zeros allowed). -/
def digitsVal (ds : List Char) : Nat :=
  ds.foldl (fun a c => a * 10 + (c.toNat - 48)) 0

/-- Python `str.isdigit()` restricted to ASCII: nonempty and all digits. -/
def pyIsDigit (s : String) : Bool :=
  !s.isEmpty && s.data.all Char.isDigit

/-- Python `int()` on a digit string. -/
def pyInt (s : String) : Nat :=
  digitsVal s.data

/-! ### `api_get`: single-page fetch with retry (lines 74–108) -/

/-- The parts of an HTTP error response that `api_get` inspects:
the status code and the optional `Retry-After` header. -/
structure HttpResp where
  status : Nat
  retryAfter? : Option String := none
deriving Repr, DecidableEq

/-- Outcome of one request attempt: success with a decoded body,
an `HTTPError` (whose `response` attribute may be absent), or a
transport-level `RequestException`. -/
inductive Outcome (α : Type) where
  | success (d : α)
  | httpError (response? : Option HttpResp)
  | reqError
deriving Repr, DecidableEq

/-- The retryable status set `{429, 500, 502, 503, 504}`. -/
def retryableStatus (s : Nat) : Bool :=
  s == 429 || s == 500 || s == 502 || s == 503 || s == 504

/-- An outcome on which `api_get` retries (provided attempts remain):
a retryable-status HTTP error or a transport error. -/
def retryableOutcome {α : Type} : Outcome α → Bool
  | .success _ => false
  | .httpError none => false
  | .httpError (some resp) => retryableStatus resp.status
  | .reqError => true

/-- The retry loop of `api_get`.  `oc i` is the outcome of attempt `i`
(0-based); `fuel` counts the attempts remaining (initially
`maxAttempts`, so `attempt = maxAttempts - fuel`); `backoff` starts at 1
and doubles after every sleep.  Returns the result (`none` = "no data")
and the sleep durations performed, in order. -/
def apiGetGo {α : Type} (oc : Nat → Outcome α) (maxAttempts : Nat) :
    Nat → Nat → Nat → List Nat → Option α × List Nat
  | 0, _, _, sleeps => (none, sleeps.reverse)
  | fuel + 1, attempt, backoff, sleeps =>
    match oc attempt with
    | .success d => (some d, sleeps.reverse)
    | .httpError response? =>
      if (response?.map (·.status)).elim false retryableStatus
          && attempt < maxAttempts - 1 then
        let retry := (response?.bind (·.retryAfter?)).getD ""
        let wait := max backoff (if pyIsDigit retry then pyInt retry else 0)
        apiGetGo oc maxAttempts fuel (attempt + 1) (backoff * 2) (wait :: sleeps)
      else
        (none, sleeps.reverse)
    | .reqError =>
      if attempt < maxAttempts - 1 then
        apiGetGo oc maxAttempts fuel (attempt + 1) (backoff * 2) (backoff :: sleeps)
      else
        (none, sleeps.reverse)

/-- `api_get` over an abstract attempt-outcome sequence. -/
def api_get {α : Type} (oc : Nat → Outcome α) (maxAttempts : Nat) :
    Option α × List Nat :=
  apiGetGo oc maxAttempts maxAttempts 0 1 []

/-! ### `api_get_all`: the page-walker (lines 111–129) -/

/-- The parts of a page response that `api_get_all` inspects: the
optional `results` list and the optional `totalCount` field.  A
response with both fields absent models an empty dict (also falsy in
Python, and equally treated as end-of-data). -/
structure PageData (α : Type) where
  results? : Option (List α) := none
  totalCount? : Option Nat := none
deriving Repr, DecidableEq

/-- The pagination loop of `api_get_all`.  `server page` is the result
of `api_get` for that 1-based page number (`none` models a failed
fetch).  Returns the accumulated results and the number of page
requests issued.  `fuel` bounds the iteration count of the Python
`while True` loop. -/
def apiGetAllGo {α : Type} (server : Nat → Option (PageData α)) (perPage : Nat) :
    Nat → Nat → List α → Nat → List α × Nat
  | 0, _, acc, reqs => (acc, reqs)
  | fuel + 1, page, acc, reqs =>
    match server page with
    | none => (acc, reqs + 1)
    | some d =>
      match d.results? with
      | none => (acc, reqs + 1)
      | some rs =>
        let acc' := acc ++ rs
        if rs.isEmpty || acc'.length ≥ d.totalCount?.getD 0
            || rs.length < perPage then
          (acc', reqs + 1)
        else
          apiGetAllGo server perPage fuel (page + 1) acc' (reqs + 1)

/-- `api_get_all` over an abstract paginated server: accumulated
results plus number of page requests issued. -/
def api_get_all {α : Type} (server : Nat → Option (PageData α)) (perPage : Nat)
    (fuel : Nat) : List α × Nat :=
  apiGetAllGo server perPage fuel 1 [] 0

/-- The canonical mocked paginated endpoint over an item list `xs`:
page `i` (1-based) returns the `i`-th chunk of `P` items and reports
`totalCount = xs.length`. -/
def pagedServer {α : Type} (xs : List α) (P : Nat) (page : Nat) :
    Option (PageData α) :=
  some { results? := some ((xs.drop ((page - 1) * P)).take P),
         totalCount? := some xs.length }

/-! ### `get_tier` and `is_large_tier` (lines 153–161) -/

/-- The provider-settings fields the report reads. -/
structure ProviderSettings where
  instanceSizeName? : Option String := none
  providerName? : Option String := none
  regionName? : Option String := none
deriving Repr, DecidableEq

/-- The cluster-record fields the report reads. -/
structure Cluster where
  name? : Option String := none
  clusterType? : Option String := none
  providerSettings? : Option ProviderSettings := none
  mongoDBMajorVersion? : Option String := none
  stateName? : Option String := none
  pitEnabled : Bool := false
  diskSizeGB? : Option ℚ := none
deriving Repr, DecidableEq

/-- `get_tier`: "Serverless" for serverless clusters, else the instance
size name, else "N/A". -/
def get_tier (c : Cluster) : String :=
  if c.clusterType? = some "SERVERLESS" then "Serverless"
  else ((c.providerSettings?.getD {}).instanceSizeName?).getD "N/A"

/-- `re.match(r"M(\d+)", tier)`: the number encoded by the maximal digit
run directly after a leading `M`, if nonempty. -/
def parseMNum (s : String) : Option Nat :=
  match s.data with
  | 'M' :: rest =>
    let ds := rest.takeWhile Char.isDigit
    if ds.isEmpty then none else some (digitsVal ds)
  | _ => none

/-- `is_large_tier`: the tier parses as `M{n}` and `n` strictly exceeds
the threshold. -/
def is_large_tier (threshold : Nat) (tier : String) : Bool :=
  match parseMNum tier with
  | some n => threshold < n
  | none => false

/-! ### fnmatch-style glob matching and `filter_projects` (lines 132–150) -/

/-- Scan a bracket-class body for its closing `]`: returns the
characters before it and the remainder after it. -/
def scanClose : List Char → Option (List Char × List Char)
  | [] => none
  | c :: rest =>
    if c = ']' then some ([], rest)
    else (scanClose rest).map (fun p => (c :: p.1, p.2))

theorem scanClose_length {cs a b : List Char}
    (h : scanClose cs = some (a, b)) : b.length < cs.length := by
  induction cs generalizing a b with
  | nil => simp [scanClose] at h
  | cons c rest ih =>
    simp only [scanClose] at h
    split at h
    · simp only [Option.some.injEq, Prod.mk.injEq] at h
      obtain ⟨rfl, rfl⟩ := h
      simp
    · cases hsc : scanClose rest with
      | none => rw [hsc] at h; simp at h
      | some p =>
        obtain ⟨p1, p2⟩ := p
        rw [hsc] at h
        simp only [Option.map_some', Option.some.injEq, Prod.mk.injEq] at h
        obtain ⟨rfl, rfl⟩ := h
        have := ih hsc
        simp only [List.length_cons]
        omega

/-- The body of a bracket class: a `]` directly at the start belongs to
the body; then everything up to the next `]`.  Returns the body and the
remainder of the pattern, or `none` when unclosed. -/
def splitClassBody (cs : List Char) : Option (List Char × List Char) :=
  match cs with
  | ']' :: rest => (scanClose rest).map (fun q => (']' :: q.1, q.2))
  | other => (scanClose other).map (fun q => (q.1, q.2))

/-- Interpret the characters following a `[`: an optional leading `!`
(negation), then the class body up to the closing `]`.  Returns
`(negated, body, rest-of-pattern)`; `none` when the class is unclosed
(in which case fnmatch treats `[` as a literal). -/
def splitClass (cs : List Char) : Option (Bool × List Char × List Char) :=
  match cs with
  | '!' :: rest => (splitClassBody rest).map (fun q => (true, q.1, q.2))
  | _ => (splitClassBody cs).map (fun q => (false, q.1, q.2))

theorem splitClassBody_length {cs : List Char} {q : List Char × List Char}
    (h : splitClassBody cs = some q) : q.2.length < cs.length := by
  unfold splitClassBody at h
  split at h
  · next rest =>
    cases hsc : scanClose rest with
    | none => rw [hsc] at h; simp at h
    | some p =>
      rw [hsc] at h
      simp only [Option.map_some', Option.some.injEq] at h
      have := scanClose_length hsc
      subst h
      simp only [List.length_cons]
      omega
  · cases hsc : scanClose cs with
    | none => rw [hsc] at h; simp at h
    | some p =>
      rw [hsc] at h
      simp only [Option.map_some', Option.some.injEq] at h
      have := scanClose_length hsc
      subst h
      exact this

theorem splitClass_length {cs : List Char} {q : Bool × List Char × List Char}
    (h : splitClass cs = some q) : q.2.2.length < cs.length := by
  unfold splitClass at h
  split at h
  · next rest =>
    cases hsb : splitClassBody rest with
    | none => rw [hsb] at h; simp at h
    | some p =>
      rw [hsb] at h
      simp only [Option.map_some', Option.some.injEq] at h
      have := splitClassBody_length hsb
      subst h
      simp only [List.length_cons]
      omega
  · cases hsb : splitClassBody cs with
    | none => rw [hsb] at h; simp at h
    | some p =>
      rw [hsb] at h
      simp only [Option.map_some', Option.some.injEq] at h
      have := splitClassBody_length hsb
      subst h
      exact splitClassBody_length hsb

/-- Membership in a bracket-class body, with `a-b` ranges (a trailing or
leading `-` is a literal). -/
def inClass (c : Char) : List Char → Bool
  | [] => false
  | a :: '-' :: b :: rest => (a ≤ c && c ≤ b) || inClass c rest
  | a :: rest => c == a || inClass c rest

/-- fnmatch-style glob matching over character lists, with explicit
structural fuel: `*` matches any sequence, `?` any single character,
`[seq]`/`[!seq]` character classes, an unclosed `[` is a literal, and
any other character matches itself.  The whole string must be consumed
(fnmatch anchors its regex).  Every recursive call strictly decreases
`pats.length + s.length` (for the class case by `splitClass_length`),
so fuel `pats.length + s.length + 1` never runs out. -/
def globMatchF : Nat → List Char → List Char → Bool
  | 0, _, _ => false
  | fuel + 1, pats, s =>
    match pats, s with
    | [], s => s.isEmpty
    | '*' :: ps, s =>
      globMatchF fuel ps s ||
        (match s with
         | [] => false
         | _ :: cs => globMatchF fuel ('*' :: ps) cs)
    | '?' :: ps, s =>
      (match s with
       | [] => false
       | _ :: cs => globMatchF fuel ps cs)
    | '[' :: pcs, s =>
      (match splitClass pcs with
       | some q =>
         match s with
         | [] => false
         | c :: cs => (inClass c q.2.1 != q.1) && globMatchF fuel q.2.2 cs
       | none =>
         match s with
         | [] => false
         | c :: cs => (c == '[') && globMatchF fuel pcs cs)
    | p :: ps, s =>
      (match s with
       | [] => false
       | c :: cs => (p == c) && globMatchF fuel ps cs)

/-- Glob matching with its sufficient fuel bound. -/
def globMatch (pats s : List Char) : Bool :=
  globMatchF (pats.length + s.length + 1) pats s

/-- Python `str.lower()` (on the character list; ASCII case mapping). -/
def pyLower (s : String) : String :=
  ⟨s.data.map Char.toLower⟩

/-- `fnmatch.fnmatch` on lowercased inputs, as `filter_projects` uses it. -/
def fnmatchLower (name pattern : String) : Bool :=
  globMatch (pyLower pattern).data (pyLower name).data

/-- A project record as `filter_projects` and `main` read it: the
display name may be absent (`p.get("name", "")`), plus an opaque id. -/
structure Project where
  id : String := ""
  name? : Option String := none
deriving Repr, DecidableEq

/-- The inner `match` helper of `filter_projects`: the name matches at
least one of the patterns, case-insensitively. -/
def matchAnyPattern (name : String) (patterns : List String) : Bool :=
  patterns.any (fun p => fnmatchLower name p)

/-- `filter_projects` with explicit include/exclude pattern lists
(`config.include_projects` / `config.exclude_projects`). -/
def filter_projects (includePats excludePats : List String)
    (projects : List Project) : List Project :=
  if includePats.isEmpty && excludePats.isEmpty then projects
  else
    projects.filter (fun p =>
      (includePats.isEmpty
        || matchAnyPattern (p.name?.getD "") includePats)
      && !(!excludePats.isEmpty
        && matchAnyPattern (p.name?.getD "") excludePats))


/-! ### Reports, CSV export rows (lines 278–339), table rows (342–379) -/

/-- One tenant report, as built by the worker lambda in `main`:
`project_name` is the project's name, `clusters` the fetched list. -/
structure Report where
  project_name : String
  clusters : List Cluster
deriving Repr, DecidableEq

/-- Reports sorted by `project_name`: a stable ascending sort on the
raw (case-sensitive) name. -/
def sortReportsByName (reports : List Report) : List Report :=
  reports.insertionSort (fun a b => a.project_name ≤ b.project_name)

/-- A CSV cell value before serialization: the row dicts hold strings
everywhere except `disk_size_gb`, which holds the raw number. -/
inductive Cell where
  | str (s : String)
  | num (q : ℚ)
deriving Repr, DecidableEq

/-- The CSV row for one cluster (in the `fields` order of
`export_report`). -/
def csvClusterRow (ts pname : String) (c : Cluster) : List Cell :=
  let ps := c.providerSettings?.getD {}
  [.str ts, .str pname, .str (c.name?.getD ""), .str (get_tier c),
   .str (c.clusterType?.getD ""), .str (ps.providerName?.getD "N/A"),
   .str (ps.regionName?.getD "N/A"),
   .str (c.mongoDBMajorVersion?.getD "N/A"), .str (c.stateName?.getD "N/A"),
   .str (if c.pitEnabled then "Yes" else "No"),
   .num (c.diskSizeGB?.getD 0)]

/-- The CSV placeholder row for a tenant with no clusters: only
`generated_at` and `project_name` populated, all other fields empty. -/
def csvPlaceholderRow (ts pname : String) : List Cell :=
  [.str ts, .str pname, .str "", .str "", .str "", .str "", .str "",
   .str "", .str "", .str "", .str ""]

/-- The CSV rows of `export_report`: reports sorted by project name,
then one row per cluster, or one placeholder row for a cluster-less
tenant. -/
def csvRows (ts : String) (reports : List Report) : List (List Cell) :=
  (sortReportsByName reports).flatMap (fun r =>
    if r.clusters.isEmpty then [csvPlaceholderRow ts r.project_name]
    else r.clusters.map (csvClusterRow ts r.project_name))

/-- A table row of `print_report`: the ten cell strings plus the
highlight flag. -/
abbrev Row : Type := List String × Bool

/-- The table row for one cluster.  `fmtDisk` renders `diskSizeGB` with
one decimal place (the `:.1f` format); it is kept abstract since no
claim depends on float formatting. -/
def tableClusterRow (threshold : Nat) (fmtDisk : ℚ → String)
    (pname : String) (c : Cluster) : Row :=
  let t := get_tier c
  let ps := c.providerSettings?.getD {}
  ([pname, c.name?.getD "", t, c.clusterType?.getD "",
    ps.providerName?.getD "N/A", ps.regionName?.getD "N/A",
    c.mongoDBMajorVersion?.getD "N/A", c.stateName?.getD "N/A",
    if c.pitEnabled then "Yes" else "No",
    fmtDisk (c.diskSizeGB?.getD 0)], is_large_tier threshold t)

/-- The "No clusters" table row for a cluster-less tenant. -/
def tableNoClustersRow (pname : String) : Row :=
  ([pname, "No clusters"] ++ List.replicate 8 "", false)

/-- The table rows of `print_report`, before sorting: reports iterated
in project-name order, one row per cluster or a "No clusters" row. -/
def tableRows (threshold : Nat) (fmtDisk : ℚ → String)
    (reports : List Report) : List Row :=
  (sortReportsByName reports).flatMap (fun r =>
    if r.clusters.isEmpty then [tableNoClustersRow r.project_name]
    else r.clusters.map (tableClusterRow threshold fmtDisk r.project_name))

/-! ### The row sort of `print_report` (lines 381–400) -/

/-- `float(v or 0)` on a rendered disk-size string: 0 for the empty
string, else the decimal value (integer part, optional fractional part
after a single dot). -/
def pyFloatOrZero (s : String) : ℚ :=
  if s.isEmpty then 0
  else
    let ip := s.data.takeWhile (· ≠ '.')
    let fp := (s.data.dropWhile (· ≠ '.')).drop 1
    (digitsVal ip : ℚ) + (digitsVal fp : ℚ) / (10 : ℚ) ^ fp.length

/-- The column index the sort key reads, per `--sort-by` value
(the `.get` on the index dict defaults to 0). -/
def colIdx (sortBy : String) : Nat :=
  if sortBy = "project" then 0
  else if sortBy = "cluster" then 1
  else if sortBy = "tier" then 2
  else if sortBy = "provider" then 4
  else if sortBy = "region" then 5
  else if sortBy = "disk" then 9
  else 0

/-- Text sort key: the cell at column `i`, lowercased. -/
def strKey (i : Nat) (row : Row) : String :=
  pyLower (row.1.getD i "")

/-- Tier sort key: the `M{n}` number of the tier cell, 0 otherwise. -/
def tierKey (row : Row) : Nat :=
  (parseMNum (row.1.getD 2 "")).getD 0

/-- Disk sort key: the numeric value of the rendered disk cell. -/
def diskKey (row : Row) : ℚ :=
  pyFloatOrZero (row.1.getD 9 "")

/-- The total preorder realized by
`rows.sort(key=skey, reverse=(sort_by == "disk"))`: ascending on the
selected key, except descending on the numeric disk key. -/
def rowLe (sortBy : String) (a b : Row) : Prop :=
  if sortBy = "disk" then diskKey b ≤ diskKey a
  else if sortBy = "tier" then tierKey a ≤ tierKey b
  else strKey (colIdx sortBy) a ≤ strKey (colIdx sortBy) b

instance (sortBy : String) : DecidableRel (rowLe sortBy) := fun a b => by
  unfold rowLe
  infer_instance

/-- The row sort of `print_report`: Python's `list.sort` is the stable
sort for this total preorder, hence equal to insertion sort. -/
def sortRows (sortBy : String) (rows : List Row) : List Row :=
  rows.insertionSort (rowLe sortBy)

/-! ### The concurrent aggregation of `main` (lines 484–503) -/

/-- Result collection of the worker pool: futures are consumed in
completion order; a worker's result is appended on success and the
tenant is skipped (after logging) when its fetch raised. -/
def aggregateReports (fetch : Project → Except Unit Report)
    (completionOrder : List Project) : List Report :=
  completionOrder.filterMap (fun p => (fetch p).toOption)


/-! ## Claim theorems -/

/-- `re.match(r"M(\\d+)")` on a leading-`M`-then-digits string yields the
digits' value. -/
theorem parseMNum_M (ds : List Char) (hne : ds ≠ []) (hdig : ∀ c ∈ ds, c.isDigit) :
    parseMNum ⟨'M' :: ds⟩ = some (digitsVal ds) := by
  show (if (ds.takeWhile Char.isDigit).isEmpty then none
        else some (digitsVal (ds.takeWhile Char.isDigit))) = _
  rw [List.takeWhile_eq_self_iff.mpr hdig]
  simp [hne]

/-- `re.match(r"M(\\d+)")` fails on any string not starting with `M`
followed by a digit. -/
theorem parseMNum_eq_none {s : String}
    (h : ∀ c rest, s.data = 'M' :: c :: rest → ¬ c.isDigit) :
    parseMNum s = none := by
  unfold parseMNum
  split
  · next ds heq =>
    cases ds with
    | nil => rfl
    | cons c' rest' =>
      have hc := h c' rest' heq
      simp [List.takeWhile, hc]
  · rfl

/-- C6: for every threshold `T` and tier string of the form `M{n}`
(leading `M` followed by digits), `is_large_tier` is true iff `n > T`
(strictly); for every string not starting with `M` followed by a digit
— including "Serverless", "N/A" and `R{n}` strings — it is false
regardless of `T`. -/
theorem is_large_tier_spec :
    (∀ (T : Nat) (ds : List Char), ds ≠ [] → (∀ c ∈ ds, c.isDigit) →
      is_large_tier T ⟨'M' :: ds⟩ = decide (digitsVal ds > T))
    ∧ (∀ (T : Nat) (s : String),
        (∀ c rest, s.data = 'M' :: c :: rest → ¬ c.isDigit) →
        is_large_tier T s = false)
    ∧ (∀ T, is_large_tier T "Serverless" = false)
    ∧ (∀ T, is_large_tier T "N/A" = false)
    ∧ (∀ T ds, is_large_tier T ⟨'R' :: ds⟩ = false) := by
  refine ⟨?_, ?_, fun T => rfl, fun T => rfl, fun T ds => rfl⟩
  · intro T ds hne hdig
    unfold is_large_tier
    rw [parseMNum_M ds hne hdig]
  · intro T s h
    unfold is_large_tier
    rw [parseMNum_eq_none h]

/-- Witness for C6 at `T = 30` and tier "M40". -/
theorem is_large_tier_spec_witness :
    is_large_tier 30 ⟨'M' :: ['4', '0']⟩ = decide (digitsVal ['4', '0'] > 30) :=
  is_large_tier_spec.1 30 ['4', '0'] (by decide) (by decide)

/-- C10: for every pattern configuration, the output of
`filter_projects` is a sublist of its input — it never adds,
duplicates, or reorders elements, and each retained element is the
identical input record. -/
theorem filter_projects_sublist (includePats excludePats : List String)
    (projects : List Project) :
    List.Sublist (filter_projects includePats excludePats projects) projects := by
  unfold filter_projects
  split
  · exact List.Sublist.refl _
  · exact List.filter_sublist _

/-- The five-project list of the filtering example. -/
def demoProjects : List Project :=
  [{ id := "1", name? := some "prod-us" },
   { id := "2", name? := some "prod-eu" },
   { id := "3", name? := some "dev-us" },
   { id := "4", name? := some "qa-us" },
   { id := "5", name? := some "prod-tools" }]

/-- C5: with no patterns `filter_projects` is the identity; with
inclusion patterns a project is kept only if its name matches one of
them (case-insensitively); a project matching any exclusion pattern is
removed even if it matches an inclusion pattern; and on the example
list, inclusion "prod-*" keeps the three "prod-" entries while adding
exclusion "*-tools" keeps two. -/
theorem filter_projects_spec :
    (∀ projects, filter_projects [] [] projects = projects)
    ∧ (∀ includePats excludePats projects p, includePats ≠ [] →
        p ∈ filter_projects includePats excludePats projects →
        matchAnyPattern (p.name?.getD "") includePats = true)
    ∧ (∀ includePats excludePats projects p, excludePats ≠ [] →
        matchAnyPattern (p.name?.getD "") excludePats = true →
        p ∉ filter_projects includePats excludePats projects)
    ∧ filter_projects ["prod-*"] [] demoProjects =
        [{ id := "1", name? := some "prod-us" },
         { id := "2", name? := some "prod-eu" },
         { id := "5", name? := some "prod-tools" }]
    ∧ filter_projects ["prod-*"] ["*-tools"] demoProjects =
        [{ id := "1", name? := some "prod-us" },
         { id := "2", name? := some "prod-eu" }] := by
  refine ⟨fun projects => rfl, ?_, ?_, by decide, by decide⟩
  · intro includePats excludePats projects p hinc hp
    unfold filter_projects at hp
    rw [if_neg (by simp [List.isEmpty_iff, hinc])] at hp
    have := (List.mem_filter.mp hp).2
    simp only [Bool.and_eq_true, Bool.or_eq_true, List.isEmpty_iff] at this
    rcases this.1 with h | h
    · exact absurd h hinc
    · exact h
  · intro includePats excludePats projects p hexc hmatch hp
    unfold filter_projects at hp
    rw [if_neg (by simp [List.isEmpty_iff, hexc])] at hp
    have := (List.mem_filter.mp hp).2
    simp only [Bool.and_eq_true, Bool.not_eq_eq_eq_not, Bool.not_true,
      Bool.and_eq_false_iff, List.isEmpty_iff] at this
    rcases this.2 with h | h
    · simp [List.isEmpty_iff] at h
      exact absurd h hexc
    · simp [hmatch] at h

/-- Witness for C5: "prod-us" is kept by inclusion "prod-*", hence
matches it. -/
theorem filter_projects_spec_witness :
    matchAnyPattern "prod-us" ["prod-*"] = true :=
  filter_projects_spec.2.1 ["prod-*"] [] demoProjects
    { id := "1", name? := some "prod-us" } (by decide) (by decide)

/-- C9: a page response with a non-empty `results` list but no
`totalCount` field makes the accumulated-count-reached-total stopping
condition hold immediately (the missing total reads as 0), so
pagination stops after that page with only the items seen so far, even
if further pages exist. -/
theorem api_get_all_missing_totalCount {α : Type}
    (server : Nat → Option (PageData α)) (rs : List α) (perPage fuel : Nat)
    (h1 : server 1 = some { results? := some rs, totalCount? := none })
    (hne : rs ≠ []) (hfuel : 1 ≤ fuel) :
    api_get_all server perPage fuel = (rs, 1) := by
  obtain ⟨f, rfl⟩ : ∃ f, fuel = f + 1 := ⟨fuel - 1, by omega⟩
  unfold api_get_all
  simp only [apiGetAllGo, h1, List.nil_append, Option.getD_none, ge_iff_le,
    Nat.zero_le, List.isEmpty_eq_true]
  simp [hne]

/-- A server whose page 1 lacks `totalCount` while page 2 has more
items. -/
def c9server : Nat → Option (PageData Nat) := fun page =>
  if page = 1 then some { results? := some [7], totalCount? := none }
  else some { results? := some [8, 9], totalCount? := some 3 }

/-- Witness for C9: pagination stops after page 1 with `[7]`. -/
theorem api_get_all_missing_totalCount_witness :
    api_get_all c9server 5 3 = ([7], 1) :=
  api_get_all_missing_totalCount c9server [7] 5 3 rfl (by decide) (by decide)

/-- Step equation: a successful attempt returns the decoded body. -/
theorem apiGetGo_step_success {α : Type} (oc : Nat → Outcome α)
    (m f attempt backoff : Nat) (sleeps : List Nat) (d : α)
    (h : oc attempt = .success d) :
    apiGetGo oc m (f + 1) attempt backoff sleeps = (some d, sleeps.reverse) := by
  simp only [apiGetGo]
  rw [h]

/-- Step equation: an HTTP-error attempt either retries (retryable
status and attempts remaining) with the computed wait pushed onto the
sleep list, or returns "no data". -/
theorem apiGetGo_step_http {α : Type} (oc : Nat → Outcome α)
    (m f attempt backoff : Nat) (sleeps : List Nat) (resp? : Option HttpResp)
    (h : oc attempt = .httpError resp?) :
    apiGetGo oc m (f + 1) attempt backoff sleeps =
      if ((resp?.map (·.status)).elim false retryableStatus
          && decide (attempt < m - 1)) = true then
        apiGetGo oc m f (attempt + 1) (backoff * 2)
          ((max backoff
            (if pyIsDigit ((resp?.bind (·.retryAfter?)).getD "") then
              pyInt ((resp?.bind (·.retryAfter?)).getD "") else 0)) :: sleeps)
      else (none, sleeps.reverse) := by
  simp only [apiGetGo]
  rw [h]

/-- Step equation: a transport-error attempt either retries with the
current backoff pushed onto the sleep list, or returns "no data". -/
theorem apiGetGo_step_req {α : Type} (oc : Nat → Outcome α)
    (m f attempt backoff : Nat) (sleeps : List Nat)
    (h : oc attempt = .reqError) :
    apiGetGo oc m (f + 1) attempt backoff sleeps =
      if attempt < m - 1 then
        apiGetGo oc m f (attempt + 1) (backoff * 2) (backoff :: sleeps)
      else (none, sleeps.reverse) := by
  simp only [apiGetGo]
  rw [h]

/-- The retry loop yields "no data" when every remaining attempt hits a
retryable condition. -/
theorem apiGetGo_none_of_retryable {α : Type} (oc : Nat → Outcome α)
    (maxAttempts : Nat) :
    ∀ fuel attempt backoff sleeps, attempt + fuel = maxAttempts →
    (∀ i, attempt ≤ i → i < maxAttempts → retryableOutcome (oc i) = true) →
    (apiGetGo oc maxAttempts fuel attempt backoff sleeps).1 = none := by
  intro fuel
  induction fuel with
  | zero => intro attempt backoff sleeps _ _; rfl
  | succ f ih =>
    intro attempt backoff sleeps hsum hr
    have hatt : attempt < maxAttempts := by omega
    have hret := hr attempt le_rfl hatt
    cases hoc : oc attempt with
    | success d => rw [hoc] at hret; simp [retryableOutcome] at hret
    | httpError resp? =>
      rw [apiGetGo_step_http oc maxAttempts f attempt backoff sleeps resp? hoc]
      split
      · exact ih (attempt + 1) _ _ (by omega)
          (fun i h1 h2 => hr i (by omega) h2)
      · rfl
    | reqError =>
      rw [apiGetGo_step_req oc maxAttempts f attempt backoff sleeps hoc]
      split
      · exact ih (attempt + 1) _ _ (by omega)
          (fun i h1 h2 => hr i (by omega) h2)
      · rfl

/-- The retry loop yields "no data" as soon as it reaches a
non-retryable HTTP error. -/
theorem apiGetGo_none_of_nonretryable {α : Type} (oc : Nat → Outcome α)
    (maxAttempts k : Nat) (resp? : Option HttpResp)
    (hoc : oc k = .httpError resp?)
    (hnr : (resp?.map (·.status)).elim false retryableStatus = false) :
    ∀ fuel attempt backoff sleeps, attempt + fuel = maxAttempts →
    attempt ≤ k →
    (∀ i, attempt ≤ i → i < k → retryableOutcome (oc i) = true) →
    (apiGetGo oc maxAttempts fuel attempt backoff sleeps).1 = none := by
  intro fuel
  induction fuel with
  | zero => intro attempt backoff sleeps _ _ _; rfl
  | succ f ih =>
    intro attempt backoff sleeps hsum hak hr
    by_cases heq : attempt = k
    · subst heq
      rw [apiGetGo_step_http oc maxAttempts f attempt backoff sleeps resp? hoc]
      rw [if_neg]
      simp [hnr]
    · have hlt : attempt < k := lt_of_le_of_ne hak heq
      have hret := hr attempt le_rfl hlt
      cases hoc2 : oc attempt with
      | success d => rw [hoc2] at hret; simp [retryableOutcome] at hret
      | httpError resp2? =>
        rw [apiGetGo_step_http oc maxAttempts f attempt backoff sleeps resp2? hoc2]
        split
        · exact ih (attempt + 1) _ _ (by omega) (by omega)
            (fun i h1 h2 => hr i (by omega) h2)
        · rfl
      | reqError =>
        rw [apiGetGo_step_req oc maxAttempts f attempt backoff sleeps hoc2]
        split
        · exact ih (attempt + 1) _ _ (by omega) (by omega)
            (fun i h1 h2 => hr i (by omega) h2)
        · rfl

/-- C4: `api_get` surfaces failure as "no data" (`none`), not an
exception: a non-retryable HTTP error (reached after any run of
retryable outcomes) yields `none`, and so does a retryable condition
(429/500/502/503/504 or a transport error) persisting through all
configured attempts. -/
theorem api_get_no_data {α : Type} (oc : Nat → Outcome α) (maxAttempts : Nat) :
    (∀ k resp?, k < maxAttempts → oc k = .httpError resp? →
      (resp?.map (·.status)).elim false retryableStatus = false →
      (∀ i, i < k → retryableOutcome (oc i) = true) →
      (api_get oc maxAttempts).1 = none)
    ∧ ((∀ i, i < maxAttempts → retryableOutcome (oc i) = true) →
      (api_get oc maxAttempts).1 = none) := by
  constructor
  · intro k resp? hk hoc hnr hpre
    exact apiGetGo_none_of_nonretryable oc maxAttempts k resp? hoc hnr
      maxAttempts 0 1 [] (by omega) (by omega)
      (fun i _ h2 => hpre i h2)
  · intro hr
    exact apiGetGo_none_of_retryable oc maxAttempts maxAttempts 0 1 []
      (by omega) (fun i _ h2 => hr i h2)

/-- An outcome sequence that always returns HTTP 404. -/
def c4oc : Nat → Outcome Nat := fun _ =>
  .httpError (some { status := 404, retryAfter? := none })

/-- Witness for C4: a 404 on the first attempt yields "no data". -/
theorem api_get_no_data_witness : (api_get c4oc 5).1 = none :=
  api_get_no_data c4oc 5 |>.1 0 (some { status := 404, retryAfter? := none })
    (by decide) rfl (by decide) (fun i h => absurd h (Nat.not_lt_zero i))

/-- An outcome sequence: attempt 0 is rate-limited with an explicit
`Retry-After: 0` hint, attempt 1 succeeds. -/
def c2ocZeroHint : Nat → Outcome Nat := fun i =>
  if i = 0 then .httpError (some { status := 429, retryAfter? := some "0" })
  else .success 1

/-- C2 counterexample: with an explicit `Retry-After` hint of `W = 0`
seconds followed by success, `api_get` sleeps `max(backoff, 0) = 1`
second, not the hinted `W = 0` seconds, refuting "exactly one sleep of
W seconds" as stated. -/
theorem api_get_retry_sleep_counterexample :
    api_get c2ocZeroHint 5 = (some 1, [1]) ∧ ([1] : List Nat) ≠ [0] := by
  constructor
  · decide
  · decide

/-- C2 (amended): a 429 response carrying a digit-string `Retry-After`
hint, followed by a successful attempt, causes exactly one sleep of
`max(hint, backoff)` seconds, where the backoff on the first attempt is
1 (so exactly the hint whenever the hint is at least 1); with no hint,
the sleep is the computed backoff value. -/
theorem api_get_retry_sleep {α : Type} (oc : Nat → Outcome α) (d : α)
    (maxAttempts : Nat) (hm : 2 ≤ maxAttempts) :
    (∀ hint, oc 0 = .httpError (some { status := 429, retryAfter? := some hint }) →
      pyIsDigit hint = true → oc 1 = .success d →
      api_get oc maxAttempts = (some d, [max 1 (pyInt hint)]))
    ∧ (oc 0 = .httpError (some { status := 429, retryAfter? := none }) →
      oc 1 = .success d →
      api_get oc maxAttempts = (some d, [1])) := by
  obtain ⟨m, rfl⟩ : ∃ m, maxAttempts = m + 2 := ⟨maxAttempts - 2, by omega⟩
  constructor
  · intro hint h0 hdig h1
    unfold api_get
    rw [show m + 2 = (m + 1) + 1 from rfl,
      apiGetGo_step_http oc (m + 2) (m + 1) 0 1 [] _ h0]
    rw [if_pos]
    · rw [apiGetGo_step_success oc (m + 2) m 1 2 _ d h1]
      simp [hdig]
    · simp only [Option.map_some', Option.elim, retryableStatus]
      simp
  · intro h0 h1
    unfold api_get
    rw [show m + 2 = (m + 1) + 1 from rfl,
      apiGetGo_step_http oc (m + 2) (m + 1) 0 1 [] _ h0]
    rw [if_pos]
    · rw [apiGetGo_step_success oc (m + 2) m 1 2 _ d h1]
      simp only [Prod.mk.injEq]
      exact ⟨trivial, by decide⟩
    · simp only [Option.map_some', Option.elim, retryableStatus]
      simp

/-- An outcome sequence: attempt 0 rate-limited with hint "60",
attempt 1 succeeds. -/
def c2ocHint60 : Nat → Outcome Nat := fun i =>
  if i = 0 then .httpError (some { status := 429, retryAfter? := some "60" })
  else .success 7

/-- Witness for the amended C2: hint "60" gives one sleep of 60s. -/
theorem api_get_retry_sleep_witness :
    api_get c2ocHint60 2 = (some 7, [max 1 (pyInt "60")]) :=
  (api_get_retry_sleep c2ocHint60 7 2 (by decide)).1 "60" rfl (by decide) rfl

/-- With one designated failing tenant, aggregation equals mapping the
worker lambda over the completion order with the failing tenant
filtered out. -/
theorem aggregateReports_one_failure (p0 : Project) (mk : Project → Report) :
    ∀ l : List Project,
      aggregateReports
        (fun p => if p = p0 then .error () else .ok (mk p)) l =
        (l.filter (fun p => !decide (p = p0))).map mk := by
  intro l
  induction l with
  | nil => rfl
  | cons a l ih =>
    unfold aggregateReports at ih ⊢
    rw [List.filterMap_cons, List.filter_cons]
    simp only [Except.toOption] at ih
    by_cases ha : a = p0
    · simp [ha, Except.toOption, ih]
    · simp [ha, Except.toOption, ih]

/-- C3: for N tenants of which exactly one raises during its cluster
fetch (the others yielding their reports), the aggregated report list
— in any completion order — has exactly N−1 entries, the failing
tenant appears nowhere (not even as an empty-cluster entry), and every
other tenant's report is present unmodified. -/
theorem aggregation_partial_failure_isolation
    (projects order : List Project) (p0 : Project)
    (clustersOf : Project → List Cluster)
    (hperm : order.Perm projects) (hmem : p0 ∈ projects)
    (hnodup : (projects.map (fun p => p.name?.getD "")).Nodup) :
    let mk := fun p : Project =>
      ({ project_name := p.name?.getD "", clusters := clustersOf p } : Report)
    let fetch := fun p => if p = p0 then .error () else .ok (mk p)
    (aggregateReports fetch order).length = projects.length - 1
    ∧ (∀ rep ∈ aggregateReports fetch order,
        rep.project_name ≠ p0.name?.getD "")
    ∧ (∀ p ∈ projects, p ≠ p0 → mk p ∈ aggregateReports fetch order) := by
  intro mk fetch
  have hpnodup : projects.Nodup := hnodup.of_map _
  have honodup : order.Nodup := hperm.nodup_iff.mpr hpnodup
  have hinj := List.inj_on_of_nodup_map hnodup
  have hagg : aggregateReports fetch order =
      (order.filter (fun p => !decide (p = p0))).map mk :=
    aggregateReports_one_failure p0 mk order
  have hfperm : (order.filter (fun p => !decide (p = p0))).Perm
      (projects.filter (fun p => !decide (p = p0))) := hperm.filter _
  refine ⟨?_, ?_, ?_⟩
  · rw [hagg, List.length_map, hfperm.length_eq]
    have herase : projects.filter (fun p => !decide (p = p0)) =
        projects.erase p0 := by
      rw [hpnodup.erase_eq_filter]
      apply List.filter_congr
      intro x hx
      cases hb : x == p0
      · simp only [beq_eq_false_iff_ne] at hb
        simp [hb]
      · simp only [beq_iff_eq] at hb
        simp [hb]
    rw [herase]
    have := List.length_erase_add_one hmem
    omega
  · intro rep hrep
    rw [hagg] at hrep
    obtain ⟨p, hp, rfl⟩ := List.mem_map.mp hrep
    have hpmem : p ∈ projects := hperm.mem_iff.mp (List.mem_of_mem_filter hp)
    have hpne : p ≠ p0 := by
      have := List.of_mem_filter hp
      simpa using this
    intro hname
    exact hpne (hinj hpmem hmem hname)
  · intro p hp hne
    rw [hagg]
    exact List.mem_map_of_mem mk
      (hfperm.mem_iff.mpr (List.mem_filter.mpr ⟨hp, by simpa using hne⟩))

/-- Witness for C3: three tenants, the second failing, yield two
reports in completion order reversed from submission. -/
theorem aggregation_partial_failure_isolation_witness :
    (aggregateReports
      (fun p => if p = { id := "2", name? := some "b" } then .error ()
        else .ok ({ project_name := p.name?.getD "", clusters := [] } : Report))
      [{ id := "3", name? := some "c" }, { id := "2", name? := some "b" },
       { id := "1", name? := some "a" }]).length =
      ([{ id := "1", name? := some "a" }, { id := "2", name? := some "b" },
        { id := "3", name? := some "c" }] : List Project).length - 1 := by
  have h := aggregation_partial_failure_isolation
    [{ id := "1", name? := some "a" }, { id := "2", name? := some "b" },
     { id := "3", name? := some "c" }]
    [{ id := "3", name? := some "c" }, { id := "2", name? := some "b" },
     { id := "1", name? := some "a" }]
    { id := "2", name? := some "b" } (fun _ => [])
    (by decide) (by decide) (by decide)
  exact h.1

/-- Loop invariant for the page-walker over the canonical paginated
endpoint: entering page `p` with the first `(p-1)·P` items accumulated
and more items remaining, the loop returns all items and issues
⌈remaining/P⌉ further requests. -/
theorem apiGetAllGo_paged {α : Type} (xs : List α) (P : Nat) (hP : 1 ≤ P) :
    ∀ fuel p reqs, 1 ≤ p → (p - 1) * P < xs.length →
      (xs.length - (p - 1) * P + P - 1) / P ≤ fuel →
      apiGetAllGo (pagedServer xs P) P fuel p (xs.take ((p - 1) * P)) reqs =
        (xs, reqs + (xs.length - (p - 1) * P + P - 1) / P) := by
  intro fuel
  induction fuel with
  | zero =>
    intro p reqs hp hlt hf
    exfalso
    have h1 : 1 ≤ (xs.length - (p - 1) * P + P - 1) / P :=
      Nat.le_div_iff_mul_le (by omega) |>.mpr (by omega)
    omega
  | succ f ih =>
    intro p reqs hp hlt hf
    have hrs : ((xs.drop ((p - 1) * P)).take P).length =
        min P (xs.length - (p - 1) * P) := by
      rw [List.length_take, List.length_drop]
    have hacc : xs.take ((p - 1) * P) ++ (xs.drop ((p - 1) * P)).take P =
        xs.take ((p - 1) * P + P) := (List.take_add xs _ P).symm
    simp only [apiGetAllGo, pagedServer, hacc]
    split
    · next hcond =>
      simp only [Bool.or_eq_true, List.isEmpty_eq_true, decide_eq_true_eq,
        ge_iff_le, Option.getD_some] at hcond
      have hlast : xs.length ≤ (p - 1) * P + P := by
        rcases hcond with (h | h) | h
        · exfalso
          have hl := congrArg List.length h
          rw [hrs] at hl
          simp only [List.length_nil] at hl
          omega
        · rw [List.length_take] at h
          omega
        · rw [hrs] at h
          omega
      rw [List.take_of_length_le hlast]
      have hone : (xs.length - (p - 1) * P + P - 1) / P = 1 :=
        Nat.div_eq_of_lt_le (by omega) (by omega)
      rw [hone]
    · next hcond =>
      simp only [Bool.or_eq_true, List.isEmpty_eq_true, decide_eq_true_eq,
        ge_iff_le, Option.getD_some, not_or, not_le, not_lt] at hcond
      obtain ⟨⟨h1, h2⟩, h3⟩ := hcond
      rw [List.length_take] at h2
      rw [hrs] at h3
      have hnext : (p - 1) * P + P < xs.length := by omega
      have hq : (p - 1) * P + P = (p + 1 - 1) * P := by
        have hp1 : p + 1 - 1 = (p - 1) + 1 := by omega
        rw [hp1, Nat.succ_mul]
      have hstep : (xs.length - (p - 1) * P + P - 1) / P =
          (xs.length - (p + 1 - 1) * P + P - 1) / P + 1 := by
        have h4 : xs.length - (p - 1) * P + P - 1 =
            (xs.length - (p + 1 - 1) * P + P - 1) + P := by omega
        rw [h4, Nat.add_div_right _ (by omega)]
      rw [hq, ih (p + 1) (reqs + 1) (by omega) (by omega) (by omega), hstep]
      rw [Nat.add_assoc, Nat.add_comm 1]

/-- C1 (amended): over a mocked endpoint serving K items in pages of
size P (each page reporting totalCount = K), `api_get_all` accumulates
exactly the K items and issues exactly ⌈K/P⌉ page requests when K ≥ 1;
when K = 0 it returns the empty list after one request (not ⌈0/P⌉ = 0
requests); and it returns the empty list after one request when the
first page failed or was empty. -/
theorem api_get_all_round_trip {α : Type} :
    (∀ (xs : List α) (P fuel : Nat), 1 ≤ P → xs ≠ [] →
      (xs.length + P - 1) / P ≤ fuel →
      api_get_all (pagedServer xs P) P fuel =
        (xs, (xs.length + P - 1) / P))
    ∧ (∀ (P fuel : Nat), 1 ≤ fuel →
      api_get_all (pagedServer ([] : List α) P) P fuel = ([], 1))
    ∧ (∀ (server : Nat → Option (PageData α)) (P fuel : Nat), 1 ≤ fuel →
      server 1 = none → api_get_all server P fuel = ([], 1))
    ∧ (∀ (server : Nat → Option (PageData α)) (tc : Option Nat) (P fuel : Nat),
      1 ≤ fuel → server 1 = some { results? := some [], totalCount? := tc } →
      api_get_all server P fuel = ([], 1)) := by
  refine ⟨?_, ?_, ?_, ?_⟩
  · intro xs P fuel hP hne hf
    have hlen : 0 < xs.length := List.length_pos.mpr hne
    have h := apiGetAllGo_paged xs P hP fuel 1 0 le_rfl
      (by simp only [Nat.sub_self, Nat.zero_mul]; exact hlen)
      (by simp only [Nat.sub_self, Nat.zero_mul, Nat.sub_zero]; exact hf)
    simp only [Nat.sub_self, Nat.zero_mul, Nat.sub_zero, List.take_zero,
      Nat.zero_add] at h
    unfold api_get_all
    exact h
  · intro P fuel hf
    obtain ⟨f, rfl⟩ : ∃ f, fuel = f + 1 := ⟨fuel - 1, by omega⟩
    unfold api_get_all
    simp [apiGetAllGo, pagedServer]
  · intro server P fuel hf h1
    obtain ⟨f, rfl⟩ : ∃ f, fuel = f + 1 := ⟨fuel - 1, by omega⟩
    unfold api_get_all
    simp [apiGetAllGo, h1]
  · intro server tc P fuel hf h1
    obtain ⟨f, rfl⟩ : ∃ f, fuel = f + 1 := ⟨fuel - 1, by omega⟩
    unfold api_get_all
    simp [apiGetAllGo, h1]

/-- C1 counterexample: for K = 0 (and P = 1) the walker still issues
one page request, while ⌈K/P⌉ = 0 — refuting the claimed request count
at K = 0. -/
theorem api_get_all_round_trip_counterexample :
    (api_get_all (pagedServer ([] : List Nat) 1) 1 5).2 = 1 ∧
      (List.length ([] : List Nat) + 1 - 1) / 1 = 0 := by
  constructor
  · decide
  · decide

/-- Witness for the amended C1: 5 items in pages of 2 come back intact
in ⌈5/2⌉ = 3 requests. -/
theorem api_get_all_round_trip_witness :
    api_get_all (pagedServer [10, 20, 30, 40, 50] 2) 2 9 =
      ([10, 20, 30, 40, 50], ([10, 20, 30, 40, 50].length + 2 - 1) / 2) :=
  api_get_all_round_trip.1 [10, 20, 30, 40, 50] 2 9 (by decide) (by decide)
    (by decide)

/-- Filtering distributes over `flatMap`. -/
theorem filter_flatMap {β γ : Type} (l : List β) (g : β → List γ)
    (p : γ → Bool) :
    (l.flatMap g).filter p = l.flatMap (fun x => (g x).filter p) := by
  induction l with
  | nil => rfl
  | cons a l ih => simp only [List.flatMap_cons, List.filter_append, ih]

/-- A `flatMap` over a duplicate-free list in which exactly one element
contributes collapses to that element's contribution. -/
theorem flatMap_eq_single {β γ : Type} [DecidableEq β] (g : β → List γ)
    (t : β) (out : List γ) :
    ∀ l : List β, t ∈ l → l.Nodup →
    (∀ r ∈ l, r ≠ t → g r = []) → g t = out → l.flatMap g = out := by
  intro l
  induction l with
  | nil => intro h; simp at h
  | cons a l ih =>
    intro hmem hnd hg hgt
    rw [List.flatMap_cons]
    by_cases ha : a = t
    · subst ha
      have hrest : l.flatMap g = [] :=
        List.flatMap_eq_nil_iff.mpr (fun x hx =>
          hg x (List.mem_cons_of_mem _ hx)
            (fun hxa => (List.nodup_cons.mp hnd).1 (hxa ▸ hx)))
      rw [hrest, hgt, List.append_nil]
    · rw [hg a (List.mem_cons_self _ _) ha, List.nil_append]
      refine ih ?_ (List.nodup_cons.mp hnd).2
        (fun r hr => hg r (List.mem_cons_of_mem _ hr)) hgt
      rcases List.mem_cons.mp hmem with h | h
      · exact absurd h.symm ha
      · exact h

/-- C8: a tenant with an empty cluster list is preserved through
sorting, rendering, and export: the CSV rows contain exactly one row
whose project-name cell is that tenant's name, and it is the
placeholder row with only the timestamp and tenant name populated
(every other field the empty string); and the sorted table contains
its "No clusters" row. -/
theorem empty_cluster_tenant_preserved
    (reports : List Report) (t : Report) (ts : String) (sortBy : String)
    (threshold : Nat) (fmtDisk : ℚ → String)
    (ht : t ∈ reports) (hempty : t.clusters = [])
    (hnodup : (reports.map Report.project_name).Nodup) :
    (csvRows ts reports).filter
        (fun row => decide (row.getD 1 (.str "") = .str t.project_name)) =
      [csvPlaceholderRow ts t.project_name]
    ∧ tableNoClustersRow t.project_name ∈
        sortRows sortBy (tableRows threshold fmtDisk reports) := by
  have hl : (sortReportsByName reports).Perm reports :=
    List.perm_insertionSort _ reports
  have htl : t ∈ sortReportsByName reports := hl.mem_iff.mpr ht
  have hnodl : ((sortReportsByName reports).map Report.project_name).Nodup :=
    (hl.map Report.project_name).nodup_iff.mpr hnodup
  have hlnodup : (sortReportsByName reports).Nodup := hnodl.of_map _
  have hinj := List.inj_on_of_nodup_map hnodl
  constructor
  · rw [csvRows, filter_flatMap]
    refine flatMap_eq_single _ t _ (sortReportsByName reports) htl hlnodup ?_ ?_
    · intro r hr hrt
      have hname : r.project_name ≠ t.project_name :=
        fun h => hrt (hinj hr htl h)
      by_cases hc : r.clusters.isEmpty
      · rw [if_pos hc]
        simp [csvPlaceholderRow, hname]
      · rw [if_neg hc]
        refine List.filter_eq_nil_iff.mpr ?_
        intro row hrow
        obtain ⟨c, hcmem, rfl⟩ := List.mem_map.mp hrow
        simp [csvClusterRow, hname]
    · rw [if_pos (by simp [hempty])]
      simp [csvPlaceholderRow]
  · rw [sortRows, List.mem_insertionSort, tableRows]
    refine List.mem_flatMap.mpr ⟨t, htl, ?_⟩
    rw [if_pos (by simp [hempty])]
    exact List.mem_singleton.mpr rfl

/-- Witness for C8 on a two-tenant collection with one empty tenant. -/
theorem empty_cluster_tenant_preserved_witness :
    (csvRows "2024-01-01T00:00:00+00:00"
        [{ project_name := "full",
           clusters := [{ name? := some "c1" }] },
         { project_name := "empty", clusters := [] }]).filter
        (fun row => decide (row.getD 1 (.str "") = .str "empty")) =
      [csvPlaceholderRow "2024-01-01T00:00:00+00:00" "empty"] :=
  (empty_cluster_tenant_preserved
    [{ project_name := "full", clusters := [{ name? := some "c1" }] },
     { project_name := "empty", clusters := [] }]
    { project_name := "empty", clusters := [] }
    "2024-01-01T00:00:00+00:00" "project" 30 (fun _ => "0.0")
    (by decide) rfl (by decide)).1

/-- The row preorder is total for every sort key. -/
theorem rowLe_total (sortBy : String) (a b : Row) :
    rowLe sortBy a b ∨ rowLe sortBy b a := by
  unfold rowLe
  split_ifs
  · exact le_total _ _
  · exact le_total _ _
  · exact le_total _ _

/-- The row preorder is transitive for every sort key. -/
theorem rowLe_trans (sortBy : String) (a b c : Row) :
    rowLe sortBy a b → rowLe sortBy b c → rowLe sortBy a c := by
  unfold rowLe
  split_ifs
  · exact fun h1 h2 => le_trans h2 h1
  · exact fun h1 h2 => le_trans h1 h2
  · exact fun h1 h2 => le_trans h1 h2

theorem rowLe_disk (a b : Row) :
    rowLe "disk" a b ↔ diskKey b ≤ diskKey a := by
  simp [rowLe]

theorem rowLe_tier (a b : Row) :
    rowLe "tier" a b ↔ tierKey a ≤ tierKey b := by
  simp [rowLe]

theorem rowLe_project (a b : Row) :
    rowLe "project" a b ↔ strKey 0 a ≤ strKey 0 b := by
  simp [rowLe, colIdx]

theorem rowLe_cluster (a b : Row) :
    rowLe "cluster" a b ↔ strKey 1 a ≤ strKey 1 b := by
  simp [rowLe, colIdx]

theorem rowLe_provider (a b : Row) :
    rowLe "provider" a b ↔ strKey 4 a ≤ strKey 4 b := by
  simp [rowLe, colIdx]

theorem rowLe_region (a b : Row) :
    rowLe "region" a b ↔ strKey 5 a ≤ strKey 5 b := by
  simp [rowLe, colIdx]

/-- A stable sort leaves every equivalence class of the sort preorder
in input order: filtering the sorted output by any class gives the
filtered input. -/
theorem insertionSort_filter_stable {γ : Type} (r : γ → γ → Prop)
    [DecidableRel r] [IsTrans γ r] (a : γ) (l : List γ) :
    (l.insertionSort r).filter (fun x => decide (r a x) && decide (r x a)) =
      l.filter (fun x => decide (r a x) && decide (r x a)) := by
  have hpair : (l.filter
      (fun x => decide (r a x) && decide (r x a))).Pairwise r := by
    refine List.pairwise_of_forall_mem_list ?_
    intro x hx y hy
    have hxm := List.of_mem_filter hx
    have hym := List.of_mem_filter hy
    simp only [Bool.and_eq_true, decide_eq_true_eq] at hxm hym
    exact IsTrans.trans _ _ _ hxm.2 hym.1
  have hsub := List.sublist_insertionSort hpair (List.filter_sublist l)
  have hsub2 : List.Sublist
      (l.filter (fun x => decide (r a x) && decide (r x a)))
      ((l.insertionSort r).filter
        (fun x => decide (r a x) && decide (r x a))) := by
    have h2 := hsub.filter (fun x => decide (r a x) && decide (r x a))
    rwa [List.filter_eq_self.mpr
      (fun x hx => (List.mem_filter.mp hx).2)] at h2
  have hlen : ((l.insertionSort r).filter
        (fun x => decide (r a x) && decide (r x a))).length =
      (l.filter (fun x => decide (r a x) && decide (r x a))).length :=
    ((List.perm_insertionSort r l).filter _).length_eq
  exact (hsub2.eq_of_length hlen.symm).symm

/-- C7: the row sort of `print_report` permutes the rows; orders them
descending by numeric disk size for the disk key, ascending by parsed
tier number for the tier key, and ascending case-insensitively on the
respective text column for the project, cluster, provider, and region
keys; and it is stable — rows comparing equal keep their relative
input order. -/
theorem print_report_sort_spec (sortBy : String) (rows : List Row) :
    (sortRows sortBy rows).Perm rows
    ∧ (sortBy = "disk" →
        (sortRows sortBy rows).Sorted (fun a b => diskKey b ≤ diskKey a))
    ∧ (sortBy = "tier" →
        (sortRows sortBy rows).Sorted (fun a b => tierKey a ≤ tierKey b))
    ∧ (sortBy = "project" →
        (sortRows sortBy rows).Sorted (fun a b => strKey 0 a ≤ strKey 0 b))
    ∧ (sortBy = "cluster" →
        (sortRows sortBy rows).Sorted (fun a b => strKey 1 a ≤ strKey 1 b))
    ∧ (sortBy = "provider" →
        (sortRows sortBy rows).Sorted (fun a b => strKey 4 a ≤ strKey 4 b))
    ∧ (sortBy = "region" →
        (sortRows sortBy rows).Sorted (fun a b => strKey 5 a ≤ strKey 5 b))
    ∧ (∀ a, (sortRows sortBy rows).filter
          (fun x => decide (rowLe sortBy a x) && decide (rowLe sortBy x a)) =
        rows.filter
          (fun x => decide (rowLe sortBy a x) && decide (rowLe sortBy x a))) := by
  haveI htot : IsTotal Row (rowLe sortBy) := ⟨rowLe_total sortBy⟩
  haveI htrans : IsTrans Row (rowLe sortBy) :=
    ⟨fun a b c => rowLe_trans sortBy a b c⟩
  have hperm : (sortRows sortBy rows).Perm rows :=
    List.perm_insertionSort _ rows
  have hsorted : (sortRows sortBy rows).Sorted (rowLe sortBy) :=
    List.sorted_insertionSort _ rows
  refine ⟨hperm, ?_, ?_, ?_, ?_, ?_, ?_, ?_⟩
  · rintro rfl
    exact hsorted.imp (fun h => (rowLe_disk _ _).mp h)
  · rintro rfl
    exact hsorted.imp (fun h => (rowLe_tier _ _).mp h)
  · rintro rfl
    exact hsorted.imp (fun h => (rowLe_project _ _).mp h)
  · rintro rfl
    exact hsorted.imp (fun h => (rowLe_cluster _ _).mp h)
  · rintro rfl
    exact hsorted.imp (fun h => (rowLe_provider _ _).mp h)
  · rintro rfl
    exact hsorted.imp (fun h => (rowLe_region _ _).mp h)
  · intro a
    exact insertionSort_filter_stable (rowLe sortBy) a rows

/-- Two table rows for the sort witness. -/
def demoRows : List Row :=
  [(["a", "c1", "M10", "REPLICASET", "AWS", "us", "7.0", "IDLE", "No",
     "10.0"], false),
   (["b", "c2", "M40", "REPLICASET", "AWS", "eu", "7.0", "IDLE", "No",
     "2.5"], true)]

/-- Witness for C7: the disk sort of the demo rows is descending by
disk size. -/
theorem print_report_sort_spec_witness :
    (sortRows "disk" demoRows).Sorted (fun a b => diskKey b ≤ diskKey a) :=
  (print_report_sort_spec "disk" demoRows).2.1 rfl

end ClusterReport
